import Mathlib

/-!
Verification of the openvino_notebooks repository's notebook test harness
and of the pure helper functions defined inside its notebooks.

The repository consists of Jupyter notebooks (JSON documents whose code
cells may carry a `test_replace` metadata table of exact-literal
substitution rules), a CI shell script that invokes
`patch_notebooks.py` and `validate_notebooks.py`, and the notebook code
itself.  The substitution rules and the notebook helper functions are
embedded below directly from the sources; the two harness scripts are
invoked by the CI script but their code is not part of the sources, so
they are modelled from the specification (each such definition says so
in its doc comment).
-/

namespace OpenvinoNotebooks

set_option maxRecDepth 1000000

/-! ## Exact-literal text substitution (Python `str.replace` semantics)

`patch_notebooks.py` applies each `test_replace` rule `frm ↦ tgt` to a
cell's source text by exact literal replacement: scan left to right,
replace each non-overlapping occurrence of `frm` by `tgt`, and continue
scanning after the inserted replacement (the replacement text itself is
not rescanned).  This is the semantics of Python's `str.replace` for a
non-empty pattern.  The fuel argument bounds the scan; one unit of fuel
is spent per character position, so `s.length` fuel always suffices. -/

def replaceFuel (pat rep : List Char) : Nat → List Char → List Char
  | 0, s => s
  | fuel + 1, s =>
    match s with
    | [] => []
    | c :: cs =>
      if pat ≠ [] ∧ pat.isPrefixOf s then
        rep ++ replaceFuel pat rep fuel (s.drop pat.length)
      else
        c :: replaceFuel pat rep fuel cs

/-- Python `text.replace(pat, rep)` on strings (non-empty `pat`). -/
def pyReplace (pat rep text : String) : String :=
  ⟨replaceFuel pat.toList rep.toList text.toList.length text.toList⟩

/-- `occursTextIn pat s`: some occurrence of `pat` is a substring of `s`. -/
def occursListIn (pat : List Char) : List Char → Bool
  | [] => pat.isEmpty
  | c :: cs => pat.isPrefixOf (c :: cs) || occursListIn pat cs

def occursTextIn (pat s : String) : Bool :=
  occursListIn pat.toList s.toList

/-- A `test_replace` substitution rule: occurrences of the exact literal
`fromText` are rewritten to `toText`. -/
structure SubstRule where
  fromText : String
  toText : String
deriving DecidableEq, Repr

/-- Apply one substitution rule to one cell source text. -/
def applyRule (r : SubstRule) (src : String) : String :=
  pyReplace r.fromText r.toText src


/-! ## The `test_replace` rules declared in the repository's notebooks

Each definition below transcribes, byte for byte, the source text of a
code cell that carries a `test_replace` metadata entry, together with
that entry's substitution rule.  They come from
`112-pytorch-post-training-quantization-nncf.ipynb` (cells 16 and 22),
from the first notebook document in
`202-vision-superresolution-video.ipynb` (cell 14) and from the second
notebook document stored in the same file (cells 2, 27, 28, 30, 31, 34,
36, 38 and 40). -/

def cell112_16Src : String :=
  "def create_dataloaders(batch_size: int = 128):\n    \"\"\"Creates train dataloader that is used for quantization initialization and validation dataloader for computing the model accruacy\"\"\"\n    train_dir = DATASET_DIR / \"train\"\n    val_dir = DATASET_DIR / \"val\" / \"images\"\n    normalize = transforms.Normalize(\n        mean=[0.485, 0.456, 0.406], std=[0.229, 0.224, 0.225]\n    )\n    train_dataset = ImageFolder(\n        train_dir,\n        transforms.Compose(\n            [\n                transforms.Resize(IMAGE_SIZE),\n                transforms.ToTensor(),\n                normalize,\n            ]\n        ),\n    )\n    val_dataset = ImageFolder(\n        val_dir,\n        transforms.Compose(\n            [transforms.Resize(IMAGE_SIZE), transforms.ToTensor(), normalize]\n        ),\n    )\n\n    train_loader = torch.utils.data.DataLoader(\n        train_dataset,\n        batch_size=batch_size,\n        shuffle=True,\n        num_workers=0,\n        pin_memory=True,\n        sampler=None,\n    )\n\n    val_loader = torch.utils.data.DataLoader(\n        val_dataset,\n        batch_size=batch_size,\n        shuffle=False,\n        num_workers=0,\n        pin_memory=True,\n    )\n    return train_loader, val_loader\n\n\ntrain_loader, val_loader = create_dataloaders()"

def cell112_16Rule : SubstRule :=
  ⟨"val_dataset,", "torch.utils.data.Subset(val_dataset, range(50)),"⟩

def cell112_22Src : String :=
  "def transform_fn(data_item):\n    images, _ = data_item\n    return images\n\n\ncalibration_dataset = nncf.Dataset(train_loader, transform_fn)"

def cell112_22Rule : SubstRule :=
  ⟨"train_loader", "val_loader"⟩

def cell202v_14Src : String :=
  "VIDEO_DIR = \"../data/video\"\nOUTPUT_DIR = \"output\"\n\nPath(OUTPUT_DIR).mkdir(exist_ok=True)\n# Maximum number of frames to read from the input video. Set to 0 to read all frames.\nNUM_FRAMES = 100\n# The format for saving the result videos. The \x60vp09\x60 codec is slow, but widely available.\n# If you have FFMPEG installed, you can change FOURCC to \x60*\"THEO\"\x60 to improve video writing speed.\nFOURCC = cv2.VideoWriter_fourcc(*\"vp09\")"

def cell202v_14Rule : SubstRule :=
  ⟨"NUM_FRAMES = 100", "NUM_FRAMES = 3"⟩

def cell301_2Src : String :=
  "from pathlib import Path\n\nimport tensorflow as tf\n\nmodel_xml_path = Path(\"model/flower/flower_ir.xml\")\ndataset_url = (\n    \"https://storage.googleapis.com/download.tensorflow.org/example_images/flower_photos.tgz\"\n)\ndata_dir = Path(tf.keras.utils.get_file(\"flower_photos\", origin=dataset_url, untar=True))\n\nif not model_xml_path.exists():\n    print(\"Executing training notebook. This will take a while...\")\n    %run 301-tensorflow-training-openvino.ipynb"

def cell301_2Rule : SubstRule :=
  ⟨"301-tensorflow-training-openvino.ipynb", "test_301-tensorflow-training-openvino.ipynb"⟩

def cell301_27Src : String :=
  "# Original model - CPU\n! benchmark_app -m $model_xml -d CPU -t 15 -api async"

def cell301_27Rule : SubstRule :=
  ⟨"-t 15", "-t 3"⟩

def cell301_28Src : String :=
  "# Quantized model - CPU\n! benchmark_app -m $compressed_model_xml -d CPU -t 15 -api async"

def cell301_28Rule : SubstRule :=
  ⟨"-t 15", "-t 3"⟩

def cell301_30Src : String :=
  "# Original model - MULTI:CPU,GPU\nif \"GPU\" in ie.available_devices:\n    ! benchmark_app -m $model_xml -d MULTI:CPU,GPU -t 15 -api async\nelse:\n    print(\"A supported integrated GPU is not available on this system.\")"

def cell301_30Rule : SubstRule :=
  ⟨"-t 15", "-t 3"⟩

def cell301_31Src : String :=
  "# Quantized model - MULTI:CPU,GPU\nif \"GPU\" in ie.available_devices:\n    ! benchmark_app -m $compressed_model_xml -d MULTI:CPU,GPU -t 15 -api async\nelse:\n    print(\"A supported integrated GPU is not available on this system.\")"

def cell301_31Rule : SubstRule :=
  ⟨"-t 15", "-t 3"⟩

def cell301_34Src : String :=
  "benchmark_output = %sx benchmark_app -m $model_xml -t 15 -api async\n# Remove logging info from benchmark_app output and show only the results\nbenchmark_result = benchmark_output[-8:]\nprint(\"\\n\".join(benchmark_result))"

def cell301_34Rule : SubstRule :=
  ⟨"-t 15", "-t 3"⟩

def cell301_36Src : String :=
  "benchmark_output = %sx benchmark_app -m $compressed_model_xml -t 15 -api async\n# Remove logging info from benchmark_app output and show only the results\nbenchmark_result = benchmark_output[-8:]\nprint(\"\\n\".join(benchmark_result))"

def cell301_36Rule : SubstRule :=
  ⟨"-t 15", "-t 3"⟩

def cell301_38Src : String :=
  "if \"GPU\" in ie.available_devices:\n    benchmark_output = %sx benchmark_app -m $model_xml -d MULTI:CPU,GPU -t 15 -api async\n    # Remove logging info from benchmark_app output and show only the results\n    benchmark_result = benchmark_output[-8:]\n    print(\"\\n\".join(benchmark_result))\nelse:\n    print(\"An integrated GPU is not available on this system.\")"

def cell301_38Rule : SubstRule :=
  ⟨"-t 15", "-t 3"⟩

def cell301_40Src : String :=
  "if \"GPU\" in ie.available_devices:\n    benchmark_output = %sx benchmark_app -m $compressed_model_xml -d MULTI:CPU,GPU -t 15 -api async\n    # Remove logging info from benchmark_app output and show only the results\n    benchmark_result = benchmark_output[-8:]\n    print(\"\\n\".join(benchmark_result))\nelse:\n    print(\"An integrated GPU is not available on this system.\")"

def cell301_40Rule : SubstRule :=
  ⟨"-t 15", "-t 3"⟩


/-- All `(rule, cell source)` pairs declared via `test_replace` metadata
in the repository's notebooks. -/
def testReplaceDecls : List (SubstRule × String) :=
  [(cell112_16Rule, cell112_16Src), (cell112_22Rule, cell112_22Src),
   (cell202v_14Rule, cell202v_14Src), (cell301_2Rule, cell301_2Src),
   (cell301_27Rule, cell301_27Src), (cell301_28Rule, cell301_28Src),
   (cell301_30Rule, cell301_30Src), (cell301_31Rule, cell301_31Src),
   (cell301_34Rule, cell301_34Src), (cell301_36Rule, cell301_36Src),
   (cell301_38Rule, cell301_38Src), (cell301_40Rule, cell301_40Src)]

theorem idemCheckAll :
    testReplaceDecls.all
      (fun p => occursTextIn p.1.fromText p.1.toText ||
        (applyRule p.1 (applyRule p.1 p.2) == applyRule p.1 p.2)) = true := by
  decide

/-- Claim C1 (counterexample): the substitution rule mapping
"val_dataset," to "torch.utils.data.Subset(val_dataset, range(50))," is
not idempotent on its own cell's source text: the replacement text
contains the "from" string, so a second application substitutes inside
the text inserted by the first one. -/
theorem claim_C1_counterexample :
    applyRule cell112_16Rule (applyRule cell112_16Rule cell112_16Src) ≠
      applyRule cell112_16Rule cell112_16Src := by
  decide

/-- Claim C1 (amended): for every substitution rule declared in a
notebook's `test_replace` metadata whose replacement text does not
contain the rule's "from" text, applying the rule's exact-literal
replacement twice to the rule's cell source yields the same text as
applying it once. -/
theorem claim_C1 :
    ∀ p ∈ testReplaceDecls,
      occursTextIn p.1.fromText p.1.toText = false →
        applyRule p.1 (applyRule p.1 p.2) = applyRule p.1 p.2 := by
  intro p hp hocc
  have h := List.all_eq_true.mp idemCheckAll p hp
  rw [hocc] at h
  simpa using h

theorem claim_C1_witness :
    applyRule cell202v_14Rule (applyRule cell202v_14Rule cell202v_14Src) =
      applyRule cell202v_14Rule cell202v_14Src :=
  claim_C1 (cell202v_14Rule, cell202v_14Src) (by decide) (by decide)

/-! ## The Patcher

`patch_notebooks.py` is invoked by the CI script (`src/unnamed/part_000`,
line 22) but its code is not among the sources, so the Patcher is
modelled from the specification's Patcher contract.  The substitution
semantics itself (`pyReplace`) is characterised below: replacing is the
same as splitting the text on the non-overlapping occurrences of the
"from" text and rejoining the pieces with the "to" text, which is the
formal sense in which every occurrence gets replaced. -/

/-- Prepend a character to the first piece of a split. -/
def consHead (c : Char) : List (List Char) → List (List Char)
  | [] => [[c]]
  | l :: ls => (c :: l) :: ls

/-- Split a text on the non-overlapping occurrences of `pat`, scanning
left to right (Python `text.split(pat)` for non-empty `pat`); the
result is the list of pieces lying between consecutive occurrences. -/
def splitFuel (pat : List Char) : Nat → List Char → List (List Char)
  | 0, s => [s]
  | fuel + 1, s =>
    match s with
    | [] => [[]]
    | c :: cs =>
      if pat ≠ [] ∧ pat.isPrefixOf s then
        [] :: splitFuel pat fuel (s.drop pat.length)
      else
        consHead c (splitFuel pat fuel cs)

/-- Interleave `sep` between consecutive pieces (Python `sep.join`). -/
def joinWith (sep : List Char) : List (List Char) → List Char
  | [] => []
  | [x] => x
  | x :: y :: ys => x ++ sep ++ joinWith sep (y :: ys)

theorem consHead_ne_nil (c : Char) (L : List (List Char)) :
    consHead c L ≠ [] := by
  cases L <;> simp [consHead]

theorem splitFuel_ne_nil (pat : List Char) :
    ∀ fuel s, splitFuel pat fuel s ≠ [] := by
  intro fuel
  induction fuel with
  | zero => intro s; simp [splitFuel]
  | succ n ih =>
    intro s
    cases s with
    | nil => simp [splitFuel]
    | cons c cs =>
      simp only [splitFuel]
      split
      · simp
      · exact consHead_ne_nil _ _

theorem joinWith_consHead (sep : List Char) (c : Char)
    (L : List (List Char)) (h : L ≠ []) :
    joinWith sep (consHead c L) = c :: joinWith sep L := by
  match L with
  | [] => exact absurd rfl h
  | [l] => rfl
  | l :: y :: ys => simp [consHead, joinWith]

theorem joinWith_nil_cons (sep : List Char) (L : List (List Char))
    (h : L ≠ []) :
    joinWith sep ([] :: L) = sep ++ joinWith sep L := by
  match L with
  | [] => exact absurd rfl h
  | l :: ls => rfl

/-- Exact-literal replacement is split-and-rejoin: `pyReplace` rewrites
exactly the non-overlapping occurrences of the pattern, each to the
replacement text, and nothing else. -/
theorem replaceFuel_eq_joinWith_splitFuel (pat rep : List Char) :
    ∀ fuel s, replaceFuel pat rep fuel s = joinWith rep (splitFuel pat fuel s) := by
  intro fuel
  induction fuel with
  | zero => intro s; simp [replaceFuel, splitFuel, joinWith]
  | succ n ih =>
    intro s
    cases s with
    | nil => simp [replaceFuel, splitFuel, joinWith]
    | cons c cs =>
      simp only [replaceFuel, splitFuel]
      split
      · rw [ih, joinWith_nil_cons _ _ (splitFuel_ne_nil _ _ _)]
      · rw [ih, joinWith_consHead _ _ _ (splitFuel_ne_nil _ _ _)]

/-- A pattern that occurs nowhere in the text leaves it unchanged. -/
theorem replaceFuel_of_not_occurs (pat rep : List Char) :
    ∀ fuel s, occursListIn pat s = false → replaceFuel pat rep fuel s = s := by
  intro fuel
  induction fuel with
  | zero => intro s _; rfl
  | succ n ih =>
    intro s h
    cases s with
    | nil => rfl
    | cons c cs =>
      simp only [occursListIn, Bool.or_eq_false_iff] at h
      simp only [replaceFuel]
      rw [if_neg, ih cs h.2]
      intro hcond
      rw [h.1] at hcond
      exact Bool.false_ne_true hcond.2

theorem pyReplace_of_not_occurs (pat rep s : String)
    (h : occursTextIn pat s = false) :
    pyReplace pat rep s = s := by
  unfold occursTextIn at h
  unfold pyReplace
  rw [replaceFuel_of_not_occurs _ _ _ _ h]
  cases s
  rfl

/-- A notebook cell: executable code or markdown, with its source text. -/
structure NbCell where
  isCode : Bool
  source : String
deriving DecidableEq, Repr

/-- A notebook: an ordered sequence of cells. -/
structure Notebook where
  cells : List NbCell
deriving DecidableEq, Repr

/-- Modelled from the spec: `patch_notebooks.py` is missing from the
sources.  Per the spec's Patcher contract, a substitution rule rewrites
every occurrence of its "from" text inside an executable cell's source
and leaves markdown cells untouched. -/
def patchCell (r : SubstRule) (c : NbCell) : NbCell :=
  if c.isCode then ⟨c.isCode, applyRule r c.source⟩ else c

/-- Modelled from the spec: apply one substitution rule to every cell of
a notebook (only executable cells are rewritten). -/
def patchNotebook (r : SubstRule) (nb : Notebook) : Notebook :=
  ⟨nb.cells.map (patchCell r)⟩

/-- The cell-14 source of `202-vision-superresolution-video.ipynb` after
applying its `test_replace` rule: `NUM_FRAMES = 100` has become
`NUM_FRAMES = 3` and no other byte changed. -/
def cell202v_14SrcPatched : String :=
  "VIDEO_DIR = \"../data/video\"\nOUTPUT_DIR = \"output\"\n\nPath(OUTPUT_DIR).mkdir(exist_ok=True)\n# Maximum number of frames to read from the input video. Set to 0 to read all frames.\nNUM_FRAMES = 3\n# The format for saving the result videos. The \x60vp09\x60 codec is slow, but widely available.\n# If you have FFMPEG installed, you can change FOURCC to \x60*\"THEO\"\x60 to improve video writing speed.\nFOURCC = cv2.VideoWriter_fourcc(*\"vp09\")"

/-- Claim C6: the Patcher replaces every occurrence of a rule's "from"
text inside every executable cell's source with its "to" text (the
patched source is the original split on the occurrences of the "from"
text and rejoined with the "to" text; concretely, `NUM_FRAMES = 100`
becomes `NUM_FRAMES = 3` in its cell and no occurrence remains),
markdown cells are untouched, and a rule whose "from" text occurs in no
cell leaves the notebook unchanged and raises no error. -/
theorem claim_C6 :
    (∀ r nb, (∀ c ∈ nb.cells, occursTextIn r.fromText c.source = false) →
        patchNotebook r nb = nb) ∧
    (∀ r c, c.isCode = true →
        (patchCell r c).source =
          ⟨joinWith r.toText.toList
            (splitFuel r.fromText.toList c.source.toList.length
              c.source.toList)⟩) ∧
    (∀ r c, c.isCode = false → patchCell r c = c) ∧
    applyRule cell202v_14Rule cell202v_14Src = cell202v_14SrcPatched ∧
    occursTextIn cell202v_14Rule.fromText cell202v_14SrcPatched = false := by
  refine ⟨?_, ?_, ?_, by decide, by decide⟩
  · intro r nb h
    cases nb with
    | mk cs =>
      simp only [patchNotebook, Notebook.mk.injEq]
      induction cs with
      | nil => rfl
      | cons c rest ih =>
        have hc := h c (List.mem_cons_self _ _)
        have hrest : ∀ c ∈ rest, occursTextIn r.fromText c.source = false :=
          fun c hm => h c (List.mem_cons_of_mem _ hm)
        simp only [List.map_cons, ih hrest, List.cons.injEq, and_true]
        unfold patchCell
        split
        · rw [applyRule, pyReplace_of_not_occurs _ _ _ hc]
        · rfl
  · intro r c h
    simp only [patchCell, if_pos h, applyRule, pyReplace]
    exact congrArg String.mk (replaceFuel_eq_joinWith_splitFuel _ _ _ _)
  · intro r c h
    simp [patchCell, h]

theorem claim_C6_witness :
    patchNotebook cell202v_14Rule
        ⟨[⟨true, "print(1)"⟩, ⟨false, "notes"⟩]⟩ =
      ⟨[⟨true, "print(1)"⟩, ⟨false, "notes"⟩]⟩ :=
  claim_C6.1 cell202v_14Rule ⟨[⟨true, "print(1)"⟩, ⟨false, "notes"⟩]⟩
    (by decide)

/-! ## The validation harness

`validate_notebooks.py` is invoked by the CI script
(`src/unnamed/part_000`, line 28, with a `--ignore_list` of thirteen
notebook stems) but its code is not among the sources, so the Runner's
per-notebook outcome and the Reporter are modelled from the
specification: cells run in order; an unhandled exception stops the
notebook and records the failing cell index and error text; exceeding
the per-notebook timeout marks the notebook timed out with no credit for
earlier cells; ignored stems are skipped without executing; the exit
code is 0 exactly when every non-ignored notebook passed, and the fixed
sentinel 1 otherwise. -/

/-- Modelled from the spec: the observable behaviour of one executable
cell — its wall-clock duration and the error it raises, if any. -/
structure MCell where
  dur : Nat
  raises : Option String
deriving DecidableEq, Repr

/-- Modelled from the spec: a notebook as the validation harness sees
it — a stem (file name without extension) and its executable cells. -/
structure MNotebook where
  stem : String
  cells : List MCell
deriving DecidableEq, Repr

/-- Terminal per-notebook states of the spec's state machine. -/
inductive ExecStatus where
  | passed
  | failed (cellIdx : Nat) (err : String)
  | timedOut
  | skipped
deriving DecidableEq, Repr

/-- Modelled from the spec: execute cells in document order, starting at
cell index `idx` with `elapsed` time already spent.  A cell whose
completion would exceed the timeout is preempted (the notebook is marked
timed out); a raising cell stops the notebook with its index and error
text; otherwise execution proceeds to the next cell. -/
def runCells (timeout : Nat) : Nat → Nat → List MCell → ExecStatus
  | _, _, [] => .passed
  | elapsed, idx, c :: cs =>
    if timeout < elapsed + c.dur then .timedOut
    else
      match c.raises with
      | some e => .failed idx e
      | none => runCells timeout (elapsed + c.dur) (idx + 1) cs

/-- Modelled from the spec: run one notebook from a fresh state. -/
def runNotebook (timeout : Nat) (nb : MNotebook) : ExecStatus :=
  runCells timeout 0 0 nb.cells

/-- Modelled from the spec: a notebook whose stem is in the ignore list
is skipped without being executed; any other notebook is executed. -/
def validateOne (ignore : List String) (timeout : Nat) (nb : MNotebook) :
    ExecStatus :=
  if nb.stem ∈ ignore then .skipped else runNotebook timeout nb

/-- Modelled from the spec: the harness processes every notebook of the
batch and reports one status line per notebook. -/
def validateAll (ignore : List String) (timeout : Nat)
    (nbs : List MNotebook) : List (String × ExecStatus) :=
  nbs.map (fun nb => (nb.stem, validateOne ignore timeout nb))

/-- A result that does not count against the exit code. -/
def okStatus : ExecStatus → Bool
  | .passed => true
  | .skipped => true
  | _ => false

/-- Modelled from the spec: the Reporter's process exit code — 0 iff
every non-skipped notebook passed, the fixed sentinel 1 otherwise. -/
def exitCode (results : List (String × ExecStatus)) : Nat :=
  if results.all (fun r => okStatus r.2) then 0 else 1

/-- Modelled from `set -eo pipefail` in `src/unnamed/part_000` line 3:
the CI script fails exactly when an invoked command exits nonzero. -/
def ciScriptFails (code : Nat) : Bool := code != 0

/-- Total duration of a list of cells. -/
def cellsDur (cs : List MCell) : Nat := (cs.map (fun c => c.dur)).sum

theorem okStatus_iff (s : ExecStatus) :
    okStatus s = true ↔ s = .passed ∨ s = .skipped := by
  cases s <;> simp [okStatus]

theorem runCells_ne_skipped (t : Nat) :
    ∀ cs e i, runCells t e i cs ≠ .skipped := by
  intro cs
  induction cs with
  | nil => intro e i; simp [runCells]
  | cons c rest ih =>
    intro e i
    simp only [runCells]
    split
    · simp
    · cases hc : c.raises with
      | some err => simp
      | none => exact ih _ _

theorem validateAll_all_ok_iff (ignore : List String) (timeout : Nat)
    (nbs : List MNotebook) :
    ((validateAll ignore timeout nbs).all fun r => okStatus r.2) = true ↔
      ∀ nb ∈ nbs, nb.stem ∉ ignore → runNotebook timeout nb = .passed := by
  simp only [validateAll, List.all_eq_true]
  constructor
  · intro h nb hm hni
    have hx := h (nb.stem, validateOne ignore timeout nb)
      (List.mem_map_of_mem _ hm)
    simp only [validateOne, if_neg hni] at hx
    rcases (okStatus_iff _).mp hx with h1 | h1
    · exact h1
    · exact absurd h1 (runCells_ne_skipped _ _ _ _)
  · intro h x hx
    rcases List.mem_map.mp hx with ⟨nb, hm, rfl⟩
    simp only [validateOne]
    by_cases hmem : nb.stem ∈ ignore
    · simp [hmem, okStatus]
    · simp only [if_neg hmem]
      rw [h nb hm hmem]
      rfl

/-- Claim C2: the validation run exits with code 0 if and only if every
notebook not in the ignore list passed; any non-ignored failure yields
the nonzero code 1, which via `set -eo pipefail` makes the invoking CI
script fail. -/
theorem claim_C2 (ignore : List String) (timeout : Nat)
    (nbs : List MNotebook) :
    (exitCode (validateAll ignore timeout nbs) = 0 ↔
      ∀ nb ∈ nbs, nb.stem ∉ ignore → runNotebook timeout nb = .passed) ∧
    (ciScriptFails (exitCode (validateAll ignore timeout nbs)) = true ↔
      ¬ ∀ nb ∈ nbs, nb.stem ∉ ignore → runNotebook timeout nb = .passed) := by
  have hzero : exitCode (validateAll ignore timeout nbs) = 0 ↔
      ((validateAll ignore timeout nbs).all fun r => okStatus r.2) = true := by
    by_cases hb : ((validateAll ignore timeout nbs).all fun r => okStatus r.2) = true
    · simp [exitCode, hb]
    · simp [exitCode, hb]
  have key := hzero.trans (validateAll_all_ok_iff ignore timeout nbs)
  refine ⟨key, ?_⟩
  rw [show (ciScriptFails (exitCode (validateAll ignore timeout nbs)) = true ↔
      ¬ exitCode (validateAll ignore timeout nbs) = 0) by
    simp [ciScriptFails]]
  exact not_congr key

theorem claim_C2_witness :
    exitCode (validateAll ["skipme"] 5
      [⟨"skipme", [⟨1, some "boom"⟩]⟩, ⟨"good", [⟨2, none⟩]⟩]) = 0 :=
  (claim_C2 ["skipme"] 5
      [⟨"skipme", [⟨1, some "boom"⟩]⟩, ⟨"good", [⟨2, none⟩]⟩]).1.mpr
    (by decide)

/-- Pass and fail tallies of a result list; skipped results belong to
neither tally. -/
def passFailTally (results : List (String × ExecStatus)) : Nat × Nat :=
  (results.countP (fun r => r.2 == .passed),
   results.countP (fun r => !okStatus r.2))

/-- Claim C3: a notebook whose stem is in the ignore list is reported
skipped, is never executed (its result does not depend on its cells),
appears exactly once in the output (one line per notebook, that line
saying skipped), and removing all ignored notebooks from the batch
leaves the pass/fail tally unchanged. -/
theorem claim_C3 (ignore : List String) (timeout : Nat)
    (nbs : List MNotebook) (stem : String) (cells cells' : List MCell)
    (h : stem ∈ ignore) :
    validateOne ignore timeout ⟨stem, cells⟩ = .skipped ∧
    validateOne ignore timeout ⟨stem, cells'⟩ =
      validateOne ignore timeout ⟨stem, cells⟩ ∧
    (validateAll ignore timeout nbs).length = nbs.length ∧
    (∀ i, i < nbs.length → (nbs.getD i ⟨"", []⟩).stem ∈ ignore →
      (validateAll ignore timeout nbs).getD i ("", .passed) =
        ((nbs.getD i ⟨"", []⟩).stem, .skipped)) ∧
    passFailTally (validateAll ignore timeout nbs) =
      passFailTally (validateAll ignore timeout
        (nbs.filter (fun nb => decide (nb.stem ∉ ignore)))) := by
  refine ⟨by simp [validateOne, h], by simp [validateOne, h], by
    simp [validateAll], ?_, ?_⟩
  · intro i hi hmem
    induction nbs generalizing i with
    | nil => simp at hi
    | cons nb rest ih =>
      cases i with
      | zero =>
        simp only [List.getD_cons_zero] at hmem ⊢
        simp [validateAll, validateOne, hmem]
      | succ j =>
        simp only [List.getD_cons_succ] at hmem ⊢
        have hj : j < rest.length := by simpa using hi
        simpa [validateAll] using ih j hj hmem
  · induction nbs with
    | nil => rfl
    | cons nb rest ih =>
      by_cases hmem : nb.stem ∈ ignore
      · have hskip : validateOne ignore timeout nb = .skipped := by
          simp [validateOne, hmem]
        simp only [validateAll, List.map_cons, List.filter_cons] at ih ⊢
        rw [if_neg (by simp [hmem])]
        simp only [passFailTally, List.countP_cons, hskip] at ih ⊢
        simpa using ih
      · simp only [validateAll, List.map_cons, List.filter_cons] at ih ⊢
        rw [if_pos (by simp [hmem])]
        simp only [passFailTally, List.countP_cons, List.map_cons] at ih ⊢
        have h1 := congrArg Prod.fst ih
        have h2 := congrArg Prod.snd ih
        simp at h1 h2
        simp [h1, h2]

theorem claim_C3_witness :
    validateOne ["skipme"] 5 ⟨"skipme", [⟨1, some "boom"⟩]⟩ = .skipped :=
  (claim_C3 ["skipme"] 5 [⟨"skipme", [⟨1, some "boom"⟩]⟩, ⟨"good", []⟩]
      "skipme" [⟨1, some "boom"⟩] [] (by decide)).1

theorem runCells_append_raise (timeout : Nat) :
    ∀ pfx elapsed idx (c : MCell) sfx err,
      (∀ c' ∈ pfx, c'.raises = none) →
      c.raises = some err →
      elapsed + cellsDur pfx + c.dur ≤ timeout →
      runCells timeout elapsed idx (pfx ++ c :: sfx) =
        .failed (idx + pfx.length) err := by
  intro pfx
  induction pfx with
  | nil =>
    intro elapsed idx c sfx err hnone hraise hfit
    simp only [cellsDur, List.map_nil, List.sum_nil, Nat.add_zero] at hfit
    simp only [List.nil_append, runCells, List.length_nil, Nat.add_zero]
    rw [if_neg (by omega), hraise]
  | cons p rest ih =>
    intro elapsed idx c sfx err hnone hraise hfit
    have hp : p.raises = none := hnone p (List.mem_cons_self _ _)
    have hrest : ∀ c' ∈ rest, c'.raises = none :=
      fun c' hm => hnone c' (List.mem_cons_of_mem _ hm)
    simp only [cellsDur, List.map_cons, List.sum_cons] at hfit
    have hif : ¬ timeout < elapsed + p.dur := by omega
    have hstep : runCells timeout elapsed idx ((p :: rest) ++ c :: sfx) =
        runCells timeout (elapsed + p.dur) (idx + 1) (rest ++ c :: sfx) := by
      simp only [List.cons_append, runCells]
      rw [if_neg hif, hp]
      rfl
    rw [hstep, ih (elapsed + p.dur) (idx + 1) c sfx err hrest hraise
      (by simp only [cellsDur]; omega)]
    simp only [List.length_cons]
    congr 1
    omega

/-- Claim C4: a cell raising an unhandled exception stops its notebook
immediately at that cell — the result records the failing cell index and
error text and does not depend on the cells after it — and each
notebook's result in a batch is exactly its stand-alone result, so every
notebook processed after a failing one still executes to completion. -/
theorem claim_C4 :
    (∀ ignore timeout pre A post,
        validateAll ignore timeout (pre ++ A :: post) =
          validateAll ignore timeout pre ++
            (A.stem, validateOne ignore timeout A) ::
              validateAll ignore timeout post) ∧
    (∀ timeout elapsed idx pfx (c : MCell) sfx err,
        (∀ c' ∈ pfx, c'.raises = none) →
        c.raises = some err →
        elapsed + cellsDur pfx + c.dur ≤ timeout →
        runCells timeout elapsed idx (pfx ++ c :: sfx) =
          .failed (idx + pfx.length) err) := by
  constructor
  · intro ignore timeout pre A post
    simp [validateAll]
  · intro timeout elapsed idx pfx c sfx err hnone hraise hfit
    exact runCells_append_raise timeout pfx elapsed idx c sfx err
      hnone hraise hfit

theorem claim_C4_witness :
    runCells 10 0 0 [⟨2, none⟩, ⟨3, some "oops"⟩, ⟨1, none⟩] =
      .failed 1 "oops" := by
  have h := claim_C4.2 10 0 0 [⟨2, none⟩] ⟨3, some "oops"⟩ [⟨1, none⟩]
    "oops" (by decide) (by decide) (by decide)
  simpa using h

/-- Claim C5: a notebook whose cumulative cell time exceeds the
per-notebook timeout is marked timed out — even when every cell executed
so far succeeded, i.e. no credit is given for them — the batch proceeds
to the notebooks after it, and a non-ignored timed-out notebook forces
the Reporter's exit code to the failure value 1. -/
theorem runCells_append_timeout (timeout : Nat) :
    ∀ pfx elapsed idx (c : MCell) sfx,
      (∀ c' ∈ pfx, c'.raises = none) →
      elapsed + cellsDur pfx ≤ timeout →
      timeout < elapsed + cellsDur pfx + c.dur →
      runCells timeout elapsed idx (pfx ++ c :: sfx) = .timedOut := by
  intro pfx
  induction pfx with
  | nil =>
    intro elapsed idx c sfx hnone hwithin hover
    simp only [cellsDur, List.map_nil, List.sum_nil, Nat.add_zero] at hover
    simp only [List.nil_append, runCells]
    rw [if_pos (by omega)]
  | cons p rest ih =>
    intro elapsed idx c sfx hnone hwithin hover
    have hp : p.raises = none := hnone p (List.mem_cons_self _ _)
    have hrest : ∀ c' ∈ rest, c'.raises = none :=
      fun c' hm => hnone c' (List.mem_cons_of_mem _ hm)
    simp only [cellsDur, List.map_cons, List.sum_cons] at hwithin hover
    have hif : ¬ timeout < elapsed + p.dur := by omega
    have hstep : runCells timeout elapsed idx ((p :: rest) ++ c :: sfx) =
        runCells timeout (elapsed + p.dur) (idx + 1) (rest ++ c :: sfx) := by
      simp only [List.cons_append, runCells]
      rw [if_neg hif, hp]
      rfl
    rw [hstep]
    exact ih (elapsed + p.dur) (idx + 1) c sfx hrest
      (by simp only [cellsDur]; omega) (by simp only [cellsDur]; omega)

/-- Claim C5: a notebook whose cumulative cell time exceeds the
per-notebook timeout is marked timed out — even when every cell executed
so far succeeded, i.e. no credit is given for them — the batch proceeds
to the notebooks after it, and a non-ignored timed-out notebook forces
the Reporter's exit code to the failure value 1. -/
theorem claim_C5 :
    (∀ timeout elapsed idx pfx (c : MCell) sfx,
        (∀ c' ∈ pfx, c'.raises = none) →
        elapsed + cellsDur pfx ≤ timeout →
        timeout < elapsed + cellsDur pfx + c.dur →
        runCells timeout elapsed idx (pfx ++ c :: sfx) = .timedOut) ∧
    (∀ ignore timeout A post,
        validateAll ignore timeout (A :: post) =
          (A.stem, validateOne ignore timeout A) ::
            validateAll ignore timeout post) ∧
    (∀ ignore timeout nbs A, A ∈ nbs → A.stem ∉ ignore →
        runNotebook timeout A = .timedOut →
        exitCode (validateAll ignore timeout nbs) = 1) := by
  refine ⟨?_, ?_, ?_⟩
  · intro timeout elapsed idx pfx c sfx hnone hwithin hover
    exact runCells_append_timeout timeout pfx elapsed idx c sfx
      hnone hwithin hover
  · intro ignore timeout A post
    simp [validateAll]
  · intro ignore timeout nbs A hm hni hto
    unfold exitCode
    rw [if_neg]
    intro hall
    have hx := List.all_eq_true.mp hall (A.stem, validateOne ignore timeout A)
      (by exact List.mem_map_of_mem _ hm)
    simp only [validateOne, if_neg hni, hto, okStatus] at hx
    exact Bool.false_ne_true hx

theorem claim_C5_witness :
    runCells 4 0 0 [⟨2, none⟩, ⟨3, none⟩] = .timedOut := by
  have h := claim_C5.1 4 0 0 [⟨2, none⟩] ⟨3, none⟩ []
    (by decide) (by decide) (by decide)
  simpa using h

/-! ## The Runner's single interpreter session

The Runner executes a notebook's cells inside one fresh kernel session,
so bindings made by an early cell (for example `ie = Core()` in the OCR
notebook, `src/unnamed/part_001`, which later cells use as
`ie.read_model` / `ie.compile_model`) are visible to every later cell.
The session is modelled from the spec as an environment of variable
bindings threaded through the cells in document order. -/

/-- Modelled from the spec: the observable effect of one session cell —
it either binds a name to a value or uses a previously bound name
(failing when that name is unbound). -/
inductive SCell where
  | assign (name : String) (v : Nat)
  | use (name : String)
deriving DecidableEq, Repr

/-- Look a name up in the session environment (most recent binding
first). -/
def lookupEnv (x : String) : List (String × Nat) → Option Nat
  | [] => none
  | (y, v) :: rest => if y = x then some v else lookupEnv x rest

/-- Modelled from the spec: execute one cell in the session state. -/
def execSCell (env : List (String × Nat)) : SCell → Option (List (String × Nat))
  | .assign x v => some ((x, v) :: env)
  | .use x =>
    match lookupEnv x env with
    | some _ => some env
    | none => none

/-- Modelled from the spec: execute cells in top-to-bottom order inside
a single session, stopping at the first failing cell. -/
def runSession (env : List (String × Nat)) :
    List SCell → Option (List (String × Nat))
  | [] => some env
  | c :: cs =>
    match execSCell env c with
    | none => none
    | some env' => runSession env' cs

/-- Modelled from the spec: like `runSession` but also recording the
indices of the cells that got executed, starting from index `idx`. -/
def runSessionTrace (env : List (String × Nat)) (idx : Nat) :
    List SCell → List Nat × Option (List (String × Nat))
  | [] => ([], some env)
  | c :: cs =>
    match execSCell env c with
    | none => ([idx], none)
    | some env' =>
      let r := runSessionTrace env' (idx + 1) cs
      (idx :: r.1, r.2)

/-- Does this cell bind the variable `x`? -/
def assignsVar (x : String) : SCell → Bool
  | .assign y _ => y = x
  | .use _ => false

theorem runSessionTrace_snd :
    ∀ cells env idx, (runSessionTrace env idx cells).2 = runSession env cells := by
  intro cells
  induction cells with
  | nil => intro env idx; rfl
  | cons c cs ih =>
    intro env idx
    simp only [runSessionTrace, runSession]
    cases execSCell env c with
    | none => rfl
    | some env' => exact ih env' (idx + 1)

theorem runSessionTrace_of_ok :
    ∀ cells env idx env', runSession env cells = some env' →
      (runSessionTrace env idx cells).1 = List.range' idx cells.length := by
  intro cells
  induction cells with
  | nil => intro env idx env' _; rfl
  | cons c cs ih =>
    intro env idx env' h
    simp only [runSession] at h
    simp only [runSessionTrace]
    cases hx : execSCell env c with
    | none => rw [hx] at h; exact absurd h (by simp)
    | some env'' =>
      rw [hx] at h
      simp only [List.length_cons, List.range'_succ]
      exact congrArg (idx :: ·) (ih env'' (idx + 1) env' h)

theorem runSession_append :
    ∀ cs1 cs2 env, runSession env (cs1 ++ cs2) =
      (runSession env cs1).bind (fun e => runSession e cs2) := by
  intro cs1
  induction cs1 with
  | nil => intro cs2 env; rfl
  | cons c cs ih =>
    intro cs2 env
    simp only [List.cons_append, runSession]
    cases execSCell env c with
    | none => rfl
    | some env' => exact ih cs2 env'

theorem lookupEnv_run_no_assign (x : String) :
    ∀ cells env env', (∀ c ∈ cells, assignsVar x c = false) →
      runSession env cells = some env' →
      lookupEnv x env' = lookupEnv x env := by
  intro cells
  induction cells with
  | nil =>
    intro env env' _ h
    simp only [runSession, Option.some.injEq] at h
    rw [h]
  | cons c cs ih =>
    intro env env' hna h
    have hc := hna c (List.mem_cons_self _ _)
    have hcs : ∀ c' ∈ cs, assignsVar x c' = false :=
      fun c' hm => hna c' (List.mem_cons_of_mem _ hm)
    cases c with
    | assign y v =>
      simp only [assignsVar, decide_eq_false_iff_not] at hc
      simp only [runSession, execSCell] at h
      rw [ih _ _ hcs h]
      simp only [lookupEnv, if_neg hc]
    | use y =>
      simp only [runSession, execSCell] at h
      cases hl : lookupEnv y env with
      | none => rw [hl] at h; exact absurd h (by simp)
      | some v =>
        rw [hl] at h
        exact ih _ _ hcs h

/-- Claim C7: the Runner executes every executable cell exactly once in
top-to-bottom document order (the trace of a successful run is exactly
the index range), inside a single session whose state is threaded
through the cells (running a concatenation continues the first part's
final state into the second part), so that a binding made by an earlier
cell and not overwritten later is visible in the final state — as with
the `ie = Core()` binding that later inference cells read. -/
theorem claim_C7 :
    (∀ env cells env', runSession env cells = some env' →
      (runSessionTrace env 0 cells).1 = List.range cells.length) ∧
    (∀ env cs1 cs2, runSession env (cs1 ++ cs2) =
      (runSession env cs1).bind (fun e => runSession e cs2)) ∧
    (∀ env pre x v suf env',
      (∀ c ∈ suf, assignsVar x c = false) →
      runSession env (pre ++ .assign x v :: suf) = some env' →
      lookupEnv x env' = some v) := by
  refine ⟨?_, ?_, ?_⟩
  · intro env cells env' h
    rw [List.range_eq_range']
    exact runSessionTrace_of_ok cells env 0 env' h
  · intro env cs1 cs2
    exact runSession_append cs1 cs2 env
  · intro env pre x v suf env' hna h
    rw [runSession_append] at h
    cases hp : runSession env pre with
    | none => rw [hp] at h; exact absurd h (by simp)
    | some env1 =>
      rw [hp] at h
      simp only [Option.bind_some, runSession, execSCell] at h
      rw [lookupEnv_run_no_assign x suf _ _ hna h]
      simp [lookupEnv]

theorem claim_C7_witness :
    lookupEnv "ie" [("ie", 7)] = some 7 :=
  claim_C7.2.2 [] [] "ie" 7 [.use "ie"] [("ie", 7)] (by decide) (by decide)

/-! ## Determinism of a notebook run

The spec's determinism property is stated over a small-step view of one
notebook's execution: the step relation below mirrors `runCells`, and it
is proven deterministic, so two complete runs of the same unmodified
notebook under the same timeout reach the same terminal status. -/

/-- A notebook execution state: either still running (elapsed time,
index of the next cell, remaining cells) or done with a terminal
status. -/
inductive RunState where
  | running (elapsed idx : Nat) (rest : List MCell)
  | done (s : ExecStatus)
deriving DecidableEq, Repr

/-- Modelled from the spec: one step of a notebook run — finish when no
cells remain, preempt when the next cell would exceed the timeout, stop
with the failing index and error when the next cell raises, otherwise
execute the next cell and continue. -/
inductive NbStep (timeout : Nat) : RunState → RunState → Prop where
  | finish (e i : Nat) :
      NbStep timeout (.running e i []) (.done .passed)
  | timeoutHit (e i : Nat) (c : MCell) (cs : List MCell)
      (h : timeout < e + c.dur) :
      NbStep timeout (.running e i (c :: cs)) (.done .timedOut)
  | raiseCell (e i : Nat) (c : MCell) (cs : List MCell) (err : String)
      (h : e + c.dur ≤ timeout) (hr : c.raises = some err) :
      NbStep timeout (.running e i (c :: cs)) (.done (.failed i err))
  | okCell (e i : Nat) (c : MCell) (cs : List MCell)
      (h : e + c.dur ≤ timeout) (hr : c.raises = none) :
      NbStep timeout (.running e i (c :: cs)) (.running (e + c.dur) (i + 1) cs)

/-- Reflexive-transitive closure of `NbStep`. -/
inductive NbSteps (timeout : Nat) : RunState → RunState → Prop where
  | refl (s : RunState) : NbSteps timeout s s
  | head (s t u : RunState) :
      NbStep timeout s t → NbSteps timeout t u → NbSteps timeout s u

theorem nbStep_deterministic (timeout : Nat) (s a b : RunState)
    (h1 : NbStep timeout s a) (h2 : NbStep timeout s b) : a = b := by
  cases h1 <;> cases h2 <;> first | rfl | omega | simp_all

theorem nbStep_not_done (timeout : Nat) (st : ExecStatus) (b : RunState)
    (h : NbStep timeout (.done st) b) : False := by
  cases h

theorem nbSteps_done_unique (timeout : Nat) :
    ∀ s u, NbSteps timeout s u →
      ∀ st1 st2, u = .done st1 → NbSteps timeout s (.done st2) →
        st1 = st2 := by
  intro s u h1
  induction h1 with
  | refl s =>
    intro st1 st2 hu h2
    subst hu
    cases h2 with
    | refl => rfl
    | head _ t _ hstep _ => cases hstep
  | head s t u hstep hrest ih =>
    intro st1 st2 hu h2
    cases h2 with
    | refl => cases hstep
    | head _ t' _ hstep' hrest' =>
      have heq := nbStep_deterministic timeout s t t' hstep hstep'
      subst heq
      exact ih st1 st2 hu hrest'

/-- The step relation agrees with the functional Runner model: from any
running state, the multi-step relation reaches exactly the status
`runCells` computes. -/
theorem runCells_steps (timeout : Nat) :
    ∀ cs e i, NbSteps timeout (.running e i cs)
      (.done (runCells timeout e i cs)) := by
  intro cs
  induction cs with
  | nil =>
    intro e i
    exact .head _ _ _ (.finish e i) (.refl _)
  | cons c rest ih =>
    intro e i
    by_cases hto : timeout < e + c.dur
    · have hrun : runCells timeout e i (c :: rest) = .timedOut := by
        simp only [runCells]
        rw [if_pos hto]
      rw [hrun]
      exact .head _ _ _ (.timeoutHit e i c rest hto) (.refl _)
    · cases hr : c.raises with
      | some err =>
        have hrun : runCells timeout e i (c :: rest) = .failed i err := by
          simp only [runCells]
          rw [if_neg hto, hr]
        rw [hrun]
        exact .head _ _ _
          (.raiseCell e i c rest err (by omega) hr) (.refl _)
      | none =>
        have hrun : runCells timeout e i (c :: rest) =
            runCells timeout (e + c.dur) (i + 1) rest := by
          simp only [runCells]
          rw [if_neg hto, hr]
        rw [hrun]
        exact .head _ _ _ (.okCell e i c rest (by omega) hr) (ih _ _)

/-- Claim C8: determinism — any two complete runs of the harness on the
same unmodified notebook under the same timeout reach the same terminal
status, and that status is the one the functional Runner model
computes. -/
theorem claim_C8 (timeout : Nat) (nb : MNotebook) (st1 st2 : ExecStatus)
    (h1 : NbSteps timeout (.running 0 0 nb.cells) (.done st1))
    (h2 : NbSteps timeout (.running 0 0 nb.cells) (.done st2)) :
    st1 = st2 ∧ st1 = runNotebook timeout nb := by
  refine ⟨nbSteps_done_unique timeout _ _ h1 st1 st2 rfl h2, ?_⟩
  exact nbSteps_done_unique timeout _ _ h1 st1 (runNotebook timeout nb) rfl
    (runCells_steps timeout nb.cells 0 0)

theorem claim_C8_witness :
    ExecStatus.passed = ExecStatus.passed ∧
      ExecStatus.passed = runNotebook 5 ⟨"demo", [⟨1, none⟩]⟩ :=
  claim_C8 5 ⟨"demo", [⟨1, none⟩]⟩ .passed .passed
    (runCells_steps 5 [⟨1, none⟩] 0 0) (runCells_steps 5 [⟨1, none⟩] 0 0)

/-! ## Notebook helper functions

`convert_result_to_image` is defined in
`202-vision-superresolution-video.ipynb` (lines 165 to 177) and
`multiply_by_ratio` in the OCR notebook `src/unnamed/part_001`.  Both are
pure numeric functions; their floating-point values are embedded as
exact rationals, and the numpy arrays as nested lists indexed the way
numpy indexes them (`squeeze` drops the leading length-1 axis,
`transpose(1, 2, 0)` permutes the index order, the arithmetic and the
comparisons act elementwise, and `astype(np.uint8)` truncates the
nonnegative clipped values toward zero). -/

/-- numpy `result.squeeze(0)` for an array whose axis 0 has length 1. -/
def squeeze0 (a : List (List (List (List ℚ)))) : List (List (List ℚ)) :=
  a.headD []

/-- numpy `transpose(1, 2, 0)` on a C×H×W array: the H×W×C array whose
(h, w, c) entry is the (c, h, w) entry of the input. -/
def transpose120 (a : List (List (List ℚ))) : List (List (List ℚ)) :=
  (List.range (a.headD []).length).map (fun h =>
    (List.range ((a.headD []).headD []).length).map (fun w =>
      (List.range a.length).map (fun c =>
        ((a.getD c []).getD h []).getD w 0)))

/-- `result *= 255` on one element. -/
def scale255 (x : ℚ) : ℚ := x * 255

/-- `result[result < 0] = 0` on one element. -/
def clipLow (x : ℚ) : ℚ := if x < 0 then 0 else x

/-- `result[result > 255] = 255` on one element. -/
def clipHigh (x : ℚ) : ℚ := if 255 < x then 255 else x

/-- `astype(np.uint8)` on one clipped element: C-style truncation of a
nonnegative value toward zero. -/
def astypeUint8 (x : ℚ) : Nat := (x.num / (x.den : ℤ)).toNat

/-- `convert_result_to_image` from
`202-vision-superresolution-video.ipynb`: squeeze the batch axis,
transpose C×H×W to H×W×C, scale by 255, clip into [0, 255] and convert
to unsigned 8-bit integers. -/
def convert_result_to_image (result : List (List (List (List ℚ)))) :
    List (List (List Nat)) :=
  (transpose120 (squeeze0 result)).map (fun m => m.map (fun r => r.map
    (fun x => astypeUint8 (clipHigh (clipLow (scale255 x))))))

/-- The input has shape `n × c × h × w` (every axis rectangular). -/
def dims4 (a : List (List (List (List ℚ)))) (n c h w : Nat) : Prop :=
  a.length = n ∧ ∀ x ∈ a, x.length = c ∧ ∀ y ∈ x, y.length = h ∧
    ∀ z ∈ y, z.length = w

theorem getD_map_range {α : Type} (n : Nat) (f : Nat → α) (i : Nat)
    (hi : i < n) (d : α) :
    ((List.range n).map f).getD i d = f i := by
  rw [List.getD_eq_getElem?_getD, List.getElem?_map,
    List.getElem?_range hi]
  rfl

theorem clipHigh_le_255 (x : ℚ) : clipHigh x ≤ 255 := by
  unfold clipHigh
  by_cases h : 255 < x
  · rw [if_pos h]
  · rw [if_neg h]
    exact le_of_not_lt h

theorem astypeUint8_le_255 (x : ℚ) (hx : x ≤ 255) : astypeUint8 x ≤ 255 := by
  unfold astypeUint8
  have h1 : x.num / (x.den : ℤ) = ⌊x⌋ := by rw [Rat.floor_def]
  rw [h1]
  have h4 : ((255 : ℤ) : ℚ) = (255 : ℚ) := by norm_num
  have h2 : ⌊x⌋ ≤ 255 := by
    have h3 : ⌊x⌋ ≤ ⌊((255 : ℤ) : ℚ)⌋ :=
      Int.floor_le_floor (by rw [h4]; exact hx)
    rw [Int.floor_intCast] at h3
    exact h3
  omega

/-- Claim C9: for a floating-point network result of shape (1, C, H, W),
`convert_result_to_image` returns an H × W × C array of unsigned 8-bit
integers, every element at most 255, and the (h, w, c) element is the
(0, c, h, w) input element scaled by 255, clipped below at 0 and above
at 255, and then converted to an integer. -/
theorem claim_C9 (a : List (List (List (List ℚ)))) (C H W : Nat)
    (hd : dims4 a 1 C H W) (hC : 0 < C) :
    (convert_result_to_image a).length = H ∧
    (∀ row ∈ convert_result_to_image a, row.length = W ∧
      ∀ px ∈ row, px.length = C) ∧
    (∀ h w c, h < H → w < W → c < C →
      (((convert_result_to_image a).getD h []).getD w []).getD c 0 =
        astypeUint8 (clipHigh (clipLow (scale255
          ((((a.getD 0 []).getD c []).getD h []).getD w 0)))) ∧
      (((convert_result_to_image a).getD h []).getD w []).getD c 0 ≤ 255) := by
  obtain ⟨hlen, hin⟩ := hd
  obtain ⟨x, rfl⟩ := List.length_eq_one.mp hlen
  obtain ⟨hxC, hxin⟩ := hin x (List.mem_singleton_self x)
  cases x with
  | nil => simp at hxC; omega
  | cons y ys =>
    obtain ⟨hyH, hyin⟩ := hxin y (List.mem_cons_self _ _)
    refine ⟨?_, ?_, ?_⟩
    · simp [convert_result_to_image, transpose120, squeeze0, hyH]
    · intro row hrow
      simp only [convert_result_to_image, transpose120, squeeze0,
        List.headD_cons, List.map_map, List.mem_map,
        List.mem_range] at hrow
      obtain ⟨h, hhlt, rfl⟩ := hrow
      rw [hyH] at hhlt
      cases y with
      | nil => rw [← hyH] at hhlt; simp at hhlt
      | cons z zs =>
        have hzW : z.length = W := hyin z (List.mem_cons_self _ _)
        constructor
        · simp [Function.comp, List.headD_cons, hzW]
        · intro px hpx
          simp only [Function.comp, List.map_map, List.mem_map,
            List.mem_range] at hpx
          obtain ⟨w, hwlt, rfl⟩ := hpx
          simpa [Function.comp] using hxC
    · intro h w c hh hw hc
      cases y with
      | nil => rw [← hyH] at hh; simp at hh
      | cons z zs =>
        have hzW : z.length = W := hyin z (List.mem_cons_self _ _)
        simp only [convert_result_to_image, transpose120, squeeze0,
          List.headD_cons, List.map_map, List.getD_cons_zero]
        rw [hyH, hzW, hxC]
        rw [getD_map_range H _ h hh]
        simp only [Function.comp]
        rw [List.map_map, getD_map_range W _ w hw]
        simp only [Function.comp]
        rw [List.map_map, getD_map_range C _ c hc]
        exact ⟨rfl, astypeUint8_le_255 _ (clipHigh_le_255 _)⟩

theorem claim_C9_witness :
    0 < 1 ∧
      (((convert_result_to_image [[[[2, -1]]]]).getD 0 []).getD 0 []).getD 0 0 =
        astypeUint8 (clipHigh (clipLow (scale255
          (((([[[[(2 : ℚ), -1]]]].getD 0 []).getD 0 []).getD 0 []).getD 0 0)))) := by
  refine ⟨Nat.one_pos, ?_⟩
  have h := claim_C9 [[[[(2 : ℚ), -1]]]] 1 1 2 (by constructor <;> simp) Nat.one_pos
  exact (h.2.2 0 0 0 Nat.one_pos (by omega) Nat.one_pos).1

/-- `multiply_by_ratio` from the OCR notebook `src/unnamed/part_001`:
scale the coordinates of a detection box (all entries but the trailing
confidence value) — even positions by `ratio_x`, odd positions by
`ratio_y` with a floor of 10. -/
def multiply_by_ratio (ratio_x ratio_y : ℚ) (box : List ℚ) : List ℚ :=
  box.dropLast.mapIdx (fun idx shape =>
    if idx % 2 = 1 then max (shape * ratio_y) 10 else shape * ratio_x)

/-- Claim C10: for a box of length at least 1, ` multiply_by_ratio`
returns a list one shorter than the box whose even-indexed entries are
the box entry times `ratio_x`, whose odd-indexed entries are the box
entry times `ratio_y` floored at 10, hence every odd-indexed entry is at
least 10. -/
theorem claim_C10 (ratio_x ratio_y : ℚ) (box : List ℚ)
    (hlen : 1 ≤ box.length) :
    ( multiply_by_ratio ratio_x ratio_y box).length = box.length - 1 ∧
    (∀ i, i < box.length - 1 → i % 2 = 0 →
      ( multiply_by_ratio ratio_x ratio_y box).getD i 0 =
        box.getD i 0 * ratio_x) ∧
    (∀ i, i < box.length - 1 → i % 2 = 1 →
      ( multiply_by_ratio ratio_x ratio_y box).getD i 0 =
        max (box.getD i 0 * ratio_y) 10 ∧
      10 ≤ ( multiply_by_ratio ratio_x ratio_y box).getD i 0) := by
  have hdl : box.dropLast.length = box.length - 1 := List.length_dropLast box
  have hgen : ∀ i, i < box.length - 1 →
      ( multiply_by_ratio ratio_x ratio_y box).getD i 0 =
        (if i % 2 = 1 then max (box.getD i 0 * ratio_y) 10
          else box.getD i 0 * ratio_x) := by
    intro i hi
    have hi1 : i < ( multiply_by_ratio ratio_x ratio_y box).length := by
      simp only [ multiply_by_ratio, List.length_mapIdx, hdl]
      omega
    have hi2 : i < box.dropLast.length := by omega
    have hi3 : i < box.length := by omega
    rw [List.getD_eq_getElem?_getD, List.getElem?_eq_getElem hi1]
    simp only [ multiply_by_ratio, List.getElem_mapIdx, Option.getD_some]
    rw [List.getElem_dropLast]
    rw [List.getD_eq_getElem?_getD, List.getElem?_eq_getElem hi3]
    rfl
  refine ⟨by simp [ multiply_by_ratio, hdl], ?_, ?_⟩
  · intro i hi hpar
    rw [hgen i hi]
    rw [if_neg (by omega)]
  · intro i hi hpar
    rw [hgen i hi, if_pos hpar]
    exact ⟨rfl, le_max_right _ _⟩

theorem claim_C10_witness :
    1 ≤ ([4, 6, 5] : List ℚ).length ∧
      ( multiply_by_ratio 2 3 [4, 6, 5]).length = ([4, 6, 5] : List ℚ).length - 1 := by
  refine ⟨by simp, ?_⟩
  exact (claim_C10 2 3 [4, 6, 5] (by simp)).1

end OpenvinoNotebooks
